import Mathlib

/-!
Shallow embedding of the Iowa election data processor
(`iowa_election_processor.py` and `team_a/process_iowa_election_data.py`).

Spreadsheet cell values are modelled by `Cell`: a cell is empty
(Python `None` / pandas `NaN`), a string, or an integer.  Each Python
function that the claims touch is translated into a Lean definition of
the same name (where Lean allows it); fallible code paths (uncaught
Python exceptions such as `IndexError`) are modelled with `Except`.
-/

set_option autoImplicit false

namespace Iowa

/-- Cell is a spreadsheet cell value: empty (`None`/`NaN`), a string, or an
integer. Vote cells in the source data are integers or blanks. -/
inductive Cell where
  | null : Cell
  | str : String → Cell
  | int : Int → Cell
deriving DecidableEq, Repr

/-- prefixOfL decides whether the first character list is a prefix of the
second. -/
def prefixOfL : List Char → List Char → Bool
  | [], _ => true
  | _ :: _, [] => false
  | a :: as, b :: bs => a == b && prefixOfL as bs

/-- substrL decides whether the first character list occurs contiguously
inside the second (Python `needle in haystack`). -/
def substrL (n : List Char) : List Char → Bool
  | [] => prefixOfL n []
  | b :: bs => prefixOfL n (b :: bs) || substrL n bs

/-- substrOf decides Python string containment `needle in haystack`. -/
def substrOf (needle haystack : String) : Bool :=
  substrL needle.toList haystack.toList

/-- lowerChar lowercases one character (Python `str.lower` restricted to
the ASCII range the election data uses). -/
def lowerChar (c : Char) : Char :=
  if 65 ≤ c.toNat ∧ c.toNat ≤ 90 then Char.ofNat (c.toNat + 32) else c

/-- lowerStr lowercases a string characterwise (Python `str.lower`). -/
def lowerStr (s : String) : String :=
  ⟨s.data.map lowerChar⟩

/-- isWS recognises the whitespace characters Python `str.strip` removes
from the ASCII data. -/
def isWS (c : Char) : Bool :=
  c == ' ' || c == '\t' || c == '\n' || c == '\r'

/-- trimL strips leading and trailing whitespace from a character list. -/
def trimL (l : List Char) : List Char :=
  (((l.dropWhile isWS).reverse).dropWhile isWS).reverse

/-- trimStr is Python `str.strip()`. -/
def trimStr (s : String) : String :=
  ⟨trimL s.data⟩

/-- endsWithStr decides Python `str.endswith(suf)`. -/
def endsWithStr (s suf : String) : Bool :=
  prefixOfL suf.data.reverse s.data.reverse

/-- dropRightStr is the Python slice `s[:-n]` for `n ≤ len(s)`. -/
def dropRightStr (s : String) (n : Nat) : String :=
  ⟨s.data.take (s.data.length - n)⟩

/-- hasHyphen decides Python `"-" in s`. -/
def hasHyphen (s : String) : Bool :=
  s.data.contains '-'

/-- digitVal maps a decimal digit character to its value. -/
def digitVal (c : Char) : Option Nat :=
  if 48 ≤ c.toNat ∧ c.toNat ≤ 57 then some (c.toNat - 48) else none

/-- digitsValAux accumulates a decimal value over digit characters,
failing on the first non-digit. -/
def digitsValAux : Nat → List Char → Option Nat
  | acc, [] => some acc
  | acc, c :: cs =>
    match digitVal c with
    | some d => digitsValAux (acc * 10 + d) cs
    | none => none

/-- digitsVal reads a nonempty all-digit character list as a number. -/
def digitsVal : List Char → Option Nat
  | [] => none
  | c :: cs => digitsValAux 0 (c :: cs)

/-- pyInt? models Python `int(s)` on a string: surrounding whitespace is
ignored, an optional sign precedes a nonempty digit run, and anything
else raises `ValueError` (here: `none`). -/
def pyInt? (s : String) : Option Int :=
  match trimL s.data with
  | '-' :: ds => (digitsVal ds).map (fun n => -(n : Int))
  | '+' :: ds => (digitsVal ds).map (fun n => (n : Int))
  | ds => (digitsVal ds).map (fun n => (n : Int))

theorem prefixOfL_iff (n : List Char) : ∀ h : List Char,
    prefixOfL n h = true ↔ ∃ t, h = n ++ t := by
  induction n with
  | nil =>
    intro h
    simp [prefixOfL]
  | cons a as ih =>
    intro h
    cases h with
    | nil =>
      simp [prefixOfL]
    | cons b bs =>
      simp only [prefixOfL, Bool.and_eq_true, beq_iff_eq, ih bs]
      constructor
      · rintro ⟨rfl, t, rfl⟩
        exact ⟨t, rfl⟩
      · rintro ⟨t, ht⟩
        cases ht
        exact ⟨rfl, t, rfl⟩

theorem substrL_iff (n : List Char) : ∀ h : List Char,
    substrL n h = true ↔ ∃ u v, h = u ++ n ++ v := by
  intro h
  induction h with
  | nil =>
    simp only [substrL, prefixOfL_iff]
    constructor
    · rintro ⟨t, ht⟩
      exact ⟨[], t, by simpa using ht⟩
    · rintro ⟨u, v, huv⟩
      have h1 : (u ++ n) ++ v = [] := huv.symm
      rcases List.append_eq_nil.mp h1 with ⟨h2, h3⟩
      rcases List.append_eq_nil.mp h2 with ⟨h4, h5⟩
      exact ⟨[], by simp [h5]⟩
  | cons b bs ih =>
    simp only [substrL, Bool.or_eq_true, prefixOfL_iff, ih]
    constructor
    · rintro (⟨t, ht⟩ | ⟨u, v, huv⟩)
      · exact ⟨[], t, by simpa using ht⟩
      · exact ⟨b :: u, v, by simp [huv]⟩
    · rintro ⟨u, v, huv⟩
      cases u with
      | nil =>
        exact Or.inl ⟨v, by simpa using huv⟩
      | cons x xs =>
        refine Or.inr ⟨xs, v, ?_⟩
        have := huv
        simp only [List.cons_append] at this
        exact (List.cons.injEq _ _ _ _ ▸ this).2

/-- races_to_keep is the fixed keyword list of `is_race_we_want`
(iowa_election_processor.py, lines 46-55). -/
def races_to_keep : List String :=
  ["president", "governor", "u.s. senator", "us senator",
   "u.s. rep", "us rep", "state senator", "state rep"]

/-- is_race_we_want (iowa_election_processor.py, lines 24-63): `None` and
non-string inputs are rejected; a string is kept iff its lowercasing
contains one of the keywords as a substring. -/
def is_race_we_want (race_name : Cell) : Bool :=
  match race_name with
  | Cell.null => false
  | Cell.int _ => false
  | Cell.str s => races_to_keep.any (fun kw => substrOf kw (lowerStr s))

/-- team_a_race_patterns is the pattern list of `filter_races`
(team_a/process_iowa_election_data.py, lines 16-24), matched
case-insensitively via a joined regex with `str.contains`. -/
def team_a_race_patterns : List String :=
  ["President", "US Senator", "United States Senator", "US Rep",
   "United States Representative", "State Rep", "Governor"]

/-- filter_races_keep models the row predicate of `filter_races`
(team_a/process_iowa_election_data.py, lines 13-28): `str.contains`
with `case=False, na=False` keeps a row iff the RaceTitle cell is a
string containing one of the patterns case-insensitively; a missing or
non-string cell is dropped (`na=False`). -/
def filter_races_keep (c : Cell) : Bool :=
  match c with
  | Cell.str s => team_a_race_patterns.any (fun p => substrOf (lowerStr p) (lowerStr s))
  | _ => false

/-- metadata_columns is the fixed metadata column-name list of
`get_columns_to_keep` (iowa_election_processor.py, line 92). -/
def metadata_columns : List String :=
  ["RaceTitle", "CandidateName", "PoliticalPartyName"]

/-- keepName is the per-header decision of `get_columns_to_keep`
(iowa_election_processor.py, lines 102-117): trim the header; a metadata
name is kept as itself; any other name is kept only if it ends with the
6-character suffix " Total" and the name with that suffix removed
contains a hyphen, in which case the stripped name is kept. -/
def keepName (s : String) : Option String :=
  if metadata_columns.contains (trimStr s) then some (trimStr s)
  else if endsWithStr (trimStr s) " Total" then
    if hasHyphen (dropRightStr (trimStr s) 6) then some (dropRightStr (trimStr s) 6)
    else none
  else none

/-- columnsToKeepAux walks the header row with its running column index,
skipping empty (`None`) headers (iowa_election_processor.py, lines 95-117). -/
def columnsToKeepAux : Nat → List (Option String) → List (Nat × String)
  | _, [] => []
  | i, h :: hs =>
    match h with
    | Option.none => columnsToKeepAux (i + 1) hs
    | Option.some s =>
      match keepName s with
      | some n => (i, n) :: columnsToKeepAux (i + 1) hs
      | none => columnsToKeepAux (i + 1) hs

/-- get_columns_to_keep (iowa_election_processor.py, lines 70-119) maps a
header row to the ordered list of (source column index, output name). -/
def get_columns_to_keep (header_row : List (Option String)) : List (Nat × String) :=
  columnsToKeepAux 0 header_row

/-- processRow extracts the kept columns of one data row
(iowa_election_processor.py, line 175): Python `row[index]` on a
tuple padded with `None` by openpyxl is `getD` with default `null`. -/
def processRow (cols : List (Nat × String)) (row : List Cell) : List Cell :=
  cols.map (fun p => row.getD p.1 Cell.null)

/-- keptRows filters the data rows by the race classifier applied to the
first cell (iowa_election_processor.py, lines 167-179). -/
def keptRows (rows : List (List Cell)) : List (List Cell) :=
  rows.filter (fun r => is_race_we_want (r.getD 0 Cell.null))

/-- process_election_file (iowa_election_processor.py, lines 126-190):
given the header row and the data rows, produce the output header names
and the processed data rows of the saved workbook. -/
def process_election_file (headers : List (Option String)) (rows : List (List Cell)) :
    List String × List (List Cell) :=
  let cols := get_columns_to_keep headers
  (cols.map Prod.snd, (keptRows rows).map (processRow cols))

/-- isTotalLabel tests the column-category cell against the two accepted
labels (team_a/process_iowa_election_data.py, line 131): a `NaN` cell
compares unequal to both. -/
def isTotalLabel (c : Cell) : Bool :=
  c == Cell.str "Total Votes" || c == Cell.str "Total"

/-- findTotalAux scans the remaining offsets of the 5-column lookahead
window (team_a/process_iowa_election_data.py, lines 127-133): an offset
whose column is out of range is passed over, and the first in-range
column carrying a total label is returned. -/
def findTotalAux (row2 : List Cell) (ncols colIdx : Nat) : Nat → Nat → Option Nat
  | 0, _ => none
  | k + 1, off =>
    if colIdx + off < ncols && isTotalLabel (row2.getD (colIdx + off) Cell.null)
    then some (colIdx + off)
    else findTotalAux row2 ncols colIdx k (off + 1)

/-- findTotalCol runs the `for offset in range(5)` lookahead of the
multi-sheet parser starting at the candidate column. -/
def findTotalCol (row2 : List Cell) (ncols colIdx : Nat) : Option Nat :=
  findTotalAux row2 ncols colIdx 5 0

/-- scanCandsFuel is the candidate-discovery `while col_idx < ncols` loop
(team_a/process_iowa_election_data.py, lines 118-140): a `NaN` cell in
the candidate row advances by one; a candidate whose window holds a
total column is recorded and the scan resumes past that column; a
candidate without one is dropped and the scan advances by one.  The
fuel argument bounds the iteration count; every step advances `colIdx`
by at least one, so fuel `ncols` from the start reproduces the loop. -/
def scanCandsFuel (row1 row2 : List Cell) (ncols : Nat) : Nat → Nat → List (Cell × Nat)
  | 0, _ => []
  | fuel + 1, colIdx =>
    if colIdx < ncols then
      match row1.getD colIdx Cell.null with
      | Cell.null => scanCandsFuel row1 row2 ncols fuel (colIdx + 1)
      | c =>
        match findTotalCol row2 ncols colIdx with
        | some t => (c, t) :: scanCandsFuel row1 row2 ncols fuel (t + 1)
        | none => scanCandsFuel row1 row2 ncols fuel (colIdx + 1)
    else []

/-- scanCandidates starts the candidate scan at column 1 (after the
precinct-name column), as the source does. -/
def scanCandidates (row1 row2 : List Cell) (ncols : Nat) : List (Cell × Nat) :=
  scanCandsFuel row1 row2 ncols ncols 1

/-- votesCoerce is the vote-cell coercion of the multi-sheet parser
(team_a/process_iowa_election_data.py, line 154):
`votes if not pd.isna(votes) else 0` — only a missing cell becomes the
integer zero; every other value, numeric or not, passes unchanged. -/
def votesCoerce (v : Cell) : Cell :=
  match v with
  | Cell.null => Cell.int 0
  | x => x

/-- VRec is the VoteRecord dictionary appended at
team_a/process_iowa_election_data.py, lines 150-155. -/
structure VRec where
  race : Cell
  cand : Cell
  precinct : String
  votes : Cell
deriving DecidableEq, Repr

/-- emitRecords is the record-emission double loop
(team_a/process_iowa_election_data.py, lines 143-155): one record per
(candidate, vote column) and (precinct, row) pair, with the vote cell
coerced by `votesCoerce` and the precinct qualified by county. -/
def emitRecords (county : String) (raceTitle : Cell) (cands : List (Cell × Nat))
    (precs : List (String × Nat)) (df : List (List Cell)) : List VRec :=
  cands.flatMap (fun cq => precs.map (fun pq =>
    ⟨raceTitle, cq.1, county ++ "-" ++ pq.1,
     votesCoerce ((df.getD pq.2 []).getD cq.2 Cell.null)⟩))

/-- cellRepr renders a cell inside a diagnostic message, as the Python
f-strings render the raw values. -/
def cellRepr : Cell → String
  | Cell.null => "None"
  | Cell.str s => s
  | Cell.int n => toString n

/-- mismatchMsg is the row-mismatch finding text
(iowa_election_processor.py, lines 284-287). -/
def mismatchMsg (county : String) (expected got : Cell × Cell) : String :=
  "Row mismatch in " ++ county ++ ": expected (" ++ cellRepr expected.1 ++ ", " ++
    cellRepr expected.2 ++ "), got (" ++ cellRepr got.1 ++ ", " ++ cellRepr got.2 ++ ")"

/-- shapeMsg is the column-count finding text
(iowa_election_processor.py, lines 306-308). -/
def shapeMsg (rowNo got expected : Nat) : String :=
  "Row " ++ toString rowNo ++ " has " ++ toString got ++ " columns, expected " ++
    toString expected

/-- suspMsg is the suspicious-pattern finding text
(iowa_election_processor.py, lines 340-342). -/
def suspMsg (title : String) (cand : Cell) : String :=
  "Suspicious: " ++ title ++ " / " ++ cellRepr cand ++ " has votes in ALL precincts"

/-- rcKey reads the (RaceTitle, CandidateName) pair from the first two
cells of a data row (iowa_election_processor.py, line 229). -/
def rcKey (r : List Cell) : Cell × Cell :=
  (r.getD 0 Cell.null, r.getD 1 Cell.null)

/-- IFile is one processed county workbook as `merge_county_files` sees
it: the county name recovered from the file name, the header row, and
the data rows (rows 2 and below). -/
structure IFile where
  county : String
  headers : List (Option String)
  rows : List (List Cell)

/-- precinctColsAux walks the header row collecting non-metadata columns
(iowa_election_processor.py, lines 265-269): a header is kept when it is
truthy (present and non-empty) and its trimmed text is not a metadata
name; both its index and its trimmed text are recorded. -/
def precinctColsAux : Nat → List (Option String) → List (Nat × String)
  | _, [] => []
  | i, h :: hs =>
    match h with
    | Option.none => precinctColsAux (i + 1) hs
    | Option.some s =>
      if s != "" && !(metadata_columns.contains (trimStr s))
      then (i, trimStr s) :: precinctColsAux (i + 1) hs
      else precinctColsAux (i + 1) hs

/-- precinctCols lists the precinct columns of a header row. -/
def precinctCols (headers : List (Option String)) : List (Nat × String) :=
  precinctColsAux 0 headers

/-- votesAt extracts one row's cells at the precinct column indices
(iowa_election_processor.py, line 290). -/
def votesAt (pIdx : List (Nat × String)) (r : List Cell) : List Cell :=
  pIdx.map (fun p => r.getD p.1 Cell.null)

/-- mismatchProbs lists the row-mismatch findings a file generates against
the base structure (iowa_election_processor.py, lines 281-287): rows past
the base structure are not compared. -/
def mismatchProbs (county : String) (base : List (Cell × Cell)) :
    Nat → List (List Cell) → List String
  | _, [] => []
  | i, r :: rs =>
    (match base[i]? with
     | some k => if rcKey r = k then [] else [mismatchMsg county k (rcKey r)]
     | none => []) ++ mismatchProbs county base (i + 1) rs

/-- extendRows is the per-file row loop of `merge_county_files`
(iowa_election_processor.py, lines 275-293): for each data row, compare
its key against the base structure when the index is in range, then
`merged_data[row_index].extend(precinct_votes)` — an index at or past
the merged-data length raises an uncaught `IndexError`, modelled as
`Except.error`. -/
def extendRows (county : String) (pIdx : List (Nat × String)) (base : List (Cell × Cell)) :
    List (List Cell) → Nat → List (List Cell) → List String →
    Except String (List (List Cell) × List String)
  | [], _, merged, probs => Except.ok (merged, probs)
  | r :: rs, i, merged, probs =>
    match merged[i]? with
    | some mrow =>
      extendRows county pIdx base rs (i + 1) (merged.set i (mrow ++ votesAt pIdx r))
        (match base[i]? with
         | some k =>
           if rcKey r = k then probs else probs ++ [mismatchMsg county k (rcKey r)]
         | none => probs)
    | none => Except.error "IndexError: list index out of range"

/-- mergeLoop folds `extendRows` over the county files in order
(iowa_election_processor.py, lines 254-295), accumulating the merged
headers, the merged rows, the problem list and the precinct total. -/
def mergeLoop (base : List (Cell × Cell)) :
    List IFile → List String × List (List Cell) × List String × Nat →
    Except String (List String × List (List Cell) × List String × Nat)
  | [], st => Except.ok st
  | f :: fs, (hdrs, merged, probs, tot) =>
    match extendRows f.county (precinctCols f.headers) base f.rows 0 merged probs with
    | Except.ok (m2, p2) =>
      mergeLoop base fs (hdrs ++ (precinctCols f.headers).map Prod.snd, m2, p2,
        tot + (precinctCols f.headers).length)
    | Except.error e => Except.error e

/-- statewide_races is the fixed statewide keyword list of the vote
pattern check (iowa_election_processor.py, line 315). -/
def statewide_races : List String :=
  ["president", "governor", "u.s. senator", "us senator"]

/-- isStatewide tests a lowercased race title against the statewide
keyword list by substring (iowa_election_processor.py, line 332). -/
def isStatewide (t : String) : Bool :=
  statewide_races.any (fun p => substrOf p t)

/-- titleLowerP is the pure reading of
`row[0].lower() if row[0] else ""` on the cells for which that Python
expression does not raise (strings, `None`, and the falsy integer 0). -/
def titleLowerP : Cell → String
  | Cell.null => ""
  | Cell.str s => lowerStr s
  | Cell.int _ => ""

/-- titleOk recognises the cells on which
`row[0].lower() if row[0] else ""` does not raise: a truthy integer has
no `.lower` and raises `AttributeError`. -/
def titleOk : Cell → Bool
  | Cell.int n => n == 0
  | _ => true

/-- rowTitleLowerE is `row[0].lower() if row[0] else ""`
(iowa_election_processor.py, line 318) with the raising case explicit. -/
def rowTitleLowerE (c : Cell) : Except String String :=
  match c with
  | Cell.null => Except.ok ""
  | Cell.str s => Except.ok (lowerStr s)
  | Cell.int n => if n == 0 then Except.ok "" else Except.error "AttributeError"

/-- cellVoteCounted is the `if v and int(v) > 0` test with its
`try/except` guard (iowa_election_processor.py, lines 324-329): a falsy
cell is skipped, a non-coercible string is skipped by the handler, and
otherwise the integer value must be positive. -/
def cellVoteCounted (v : Cell) : Bool :=
  match v with
  | Cell.null => false
  | Cell.int n => decide (0 < n)
  | Cell.str s =>
    s != "" && (match pyInt? s with
                | some n => decide (0 < n)
                | none => false)

/-- votesCount counts the precinct cells of a row that carry positive
votes (iowa_election_processor.py, lines 323-329). -/
def votesCount (vs : List Cell) : Nat :=
  (vs.filter cellVoteCounted).length

/-- isSusp is the district-race suspicion test
(iowa_election_processor.py, line 339): not statewide, and positive
votes in every one of the `total_precincts` columns. -/
def isSusp (total : Nat) (r : List Cell) : Bool :=
  !(isStatewide (titleLowerP (r.getD 0 Cell.null))) && (votesCount (r.drop 2) == total)

/-- suspMsgOf is the suspicion finding a flagged row generates. -/
def suspMsgOf (r : List Cell) : String :=
  suspMsg (titleLowerP (r.getD 0 Cell.null)) (r.getD 1 Cell.null)

/-- suspCheckRow is one iteration of the vote-pattern loop
(iowa_election_processor.py, lines 317-342): the statewide low-coverage
branch is `pass` and records nothing; only the district full-coverage
branch emits a finding. -/
def suspCheckRow (total : Nat) (r : List Cell) : Except String (Option String) :=
  match rowTitleLowerE (r.getD 0 Cell.null) with
  | Except.error e => Except.error e
  | Except.ok t =>
    if !(isStatewide t) && (votesCount (r.drop 2) == total)
    then Except.ok (some (suspMsg t (r.getD 1 Cell.null)))
    else Except.ok Option.none

/-- suspProblemsE runs the vote-pattern check over the merged rows in
order, stopping at the first raising row as Python would. -/
def suspProblemsE (total : Nat) : List (List Cell) → Except String (List String)
  | [] => Except.ok []
  | r :: rs =>
    match suspCheckRow total r with
    | Except.error e => Except.error e
    | Except.ok o =>
      match suspProblemsE total rs with
      | Except.error e => Except.error e
      | Except.ok ps => Except.ok (o.toList ++ ps)

/-- shapeProblemsAux is verification check 1
(iowa_election_processor.py, lines 303-308): each merged row whose
length differs from the expected column count yields a finding naming
the spreadsheet row number `i + 2`. -/
def shapeProblemsAux (expected : Nat) : Nat → List (List Cell) → List String
  | _, [] => []
  | i, r :: rs =>
    (if r.length = expected then [] else [shapeMsg (i + 2) r.length expected]) ++
      shapeProblemsAux expected (i + 1) rs

/-- reportShown is the capped problem display
(iowa_election_processor.py, line 347): only the first 10 findings are
printed. -/
def reportShown (ps : List String) : List String :=
  ps.take 10

/-- reportRemainder is the count of findings not displayed
(iowa_election_processor.py, line 350). -/
def reportRemainder (ps : List String) : Nat :=
  ps.length - 10

/-- MergeOut is the observable outcome of a successful merge run: the
merged header row, the merged data rows, the accumulated problem report
and the precinct total. -/
structure MergeOut where
  headers : List String
  rows : List (List Cell)
  problems : List String
  total : Nat
deriving DecidableEq, Repr

/-- merge_county_files (iowa_election_processor.py, lines 197-372): an
empty file list aborts; otherwise the first file fixes the base
structure and the initial merged rows, every file (the first included)
is folded in by position, and the two verification checks extend the
problem list.  An uncaught Python exception anywhere surfaces as
`Except.error` and no merged output is saved. -/
def merge_county_files (files : List IFile) : Except String MergeOut :=
  match files with
  | [] => Except.error "No files found matching pattern"
  | f0 :: rest =>
    match mergeLoop (f0.rows.map rcKey) (f0 :: rest)
        (["RaceTitle", "CandidateName"],
         f0.rows.map (fun r => [r.getD 0 Cell.null, r.getD 1 Cell.null]), [], 0) with
    | Except.error e => Except.error e
    | Except.ok (hdrs, merged, probs, tot) =>
      match suspProblemsE tot merged with
      | Except.error e => Except.error e
      | Except.ok sus =>
        Except.ok ⟨hdrs, merged, probs ++ shapeProblemsAux (2 + tot) 0 merged ++ sus, tot⟩

/-- TFile is one county DataFrame produced by the per-file processors of
team_a/process_iowa_election_data.py: the ordered precinct column names,
and one row per (RaceTitle, CandidateName) key carrying one optional
vote value per precinct column (pandas `NaN` is `Option.none`).  Within
one file the keys are unique (RaceCandidateKey invariant). -/
structure TFile where
  precincts : List String
  rows : List ((String × String) × List (Option Int))

/-- firstDedupAux removes duplicates keeping the first occurrence, the
semantics of pandas `drop_duplicates`
(team_a/process_iowa_election_data.py, line 221). -/
def firstDedupAux {α : Type} [DecidableEq α] (seen : List α) : List α → List α
  | [] => []
  | a :: l =>
    if a ∈ seen then firstDedupAux seen l else a :: firstDedupAux (a :: seen) l

/-- tMergedKeys concatenates the key columns of all files and drops
duplicate keys keeping first appearance
(team_a/process_iowa_election_data.py, line 221). -/
def tMergedKeys (files : List TFile) : List (String × String) :=
  firstDedupAux [] (files.flatMap (fun f => f.rows.map Prod.fst))

/-- tFileValues is what one left merge on (RaceTitle, CandidateName)
contributes to one merged row (team_a/process_iowa_election_data.py,
lines 227-236): the file row with that key when the file has one, and a
missing (`NaN`) value in each of the file's precinct columns otherwise. -/
def tFileValues (f : TFile) (k : String × String) : List (Option Int) :=
  match f.rows.find? (fun r => r.1 == k) with
  | some r => r.2
  | none => f.precincts.map (fun _ => (Option.none : Option Int))

/-- tMergedRow is the merged vote row for one key: the files contribute
their precinct columns in file order. -/
def tMergedRow (files : List TFile) (k : String × String) : List (Option Int) :=
  files.flatMap (fun f => tFileValues f k)

/-- tMergeRows is the merged table before sorting: one row per merged
key, in first-appearance order. -/
def tMergeRows (files : List TFile) : List ((String × String) × List (Option Int)) :=
  (tMergedKeys files).map (fun k => (k, tMergedRow files k))

/-- tKeyLE orders keys by RaceTitle then CandidateName, the
`sort_values(["RaceTitle", "CandidateName"])` of
team_a/process_iowa_election_data.py, line 242. -/
def tKeyLE (a b : String × String) : Bool :=
  decide (a.1 < b.1) || (a.1 == b.1 && decide (a.2 ≤ b.2))

/-- tMergeSorted is the merged table after the final sort. -/
def tMergeSorted (files : List TFile) : List ((String × String) × List (Option Int)) :=
  (tMergeRows files).mergeSort (fun a b => tKeyLE a.1 b.1)

/-- optCell externalizes one merged value to the CSV: a present integer
is written as itself, a pandas `NaN` is written as an empty cell. -/
def optCell (v : Option Int) : Cell :=
  match v with
  | some n => Cell.int n
  | Option.none => Cell.null

/-- tExternalRow is one externalized row of the team_a merged CSV: the
two key columns, the `PoliticalPartyName` column inserted at position 2
with the constant empty string (team_a/process_iowa_election_data.py,
line 239), then the vote values. -/
def tExternalRow (row : (String × String) × List (Option Int)) : List Cell :=
  Cell.str row.1.1 :: Cell.str row.1.2 :: Cell.str "" :: row.2.map optCell

/-- tMergeExternal is the externalized team_a merged table
(team_a/process_iowa_election_data.py, lines 217-245). -/
def tMergeExternal (files : List TFile) : List (List Cell) :=
  (tMergeSorted files).map tExternalRow

theorem rowTitleLowerE_of_titleOk (c : Cell) (h : titleOk c = true) :
    rowTitleLowerE c = Except.ok (titleLowerP c) := by
  cases c with
  | null => rfl
  | str s => rfl
  | int n =>
    simp only [titleOk] at h
    simp [rowTitleLowerE, titleLowerP, h]

theorem suspCheckRow_of_titleOk (total : Nat) (r : List Cell)
    (h : titleOk (r.getD 0 Cell.null) = true) :
    suspCheckRow total r =
      Except.ok (if isSusp total r then some (suspMsgOf r) else Option.none) := by
  unfold suspCheckRow
  rw [rowTitleLowerE_of_titleOk _ h]
  show (if !(isStatewide (titleLowerP (r.getD 0 Cell.null))) &&
          (votesCount (r.drop 2) == total)
        then Except.ok (some (suspMsg (titleLowerP (r.getD 0 Cell.null)) (r.getD 1 Cell.null)))
        else Except.ok Option.none) =
      Except.ok (if isSusp total r then some (suspMsgOf r) else Option.none)
  unfold isSusp suspMsgOf
  split <;> rfl

theorem suspProblemsE_ok (total : Nat) (rows : List (List Cell))
    (h : ∀ x ∈ rows, titleOk (x.getD 0 Cell.null) = true) :
    suspProblemsE total rows =
      Except.ok ((rows.filter (fun y => isSusp total y)).map suspMsgOf) := by
  induction rows with
  | nil => rfl
  | cons r rs ih =>
    have hr : titleOk (r.getD 0 Cell.null) = true := h r (by simp)
    have hrs : ∀ x ∈ rs, titleOk (x.getD 0 Cell.null) = true :=
      fun x hx => h x (by simp [hx])
    unfold suspProblemsE
    rw [suspCheckRow_of_titleOk total r hr, ih hrs]
    by_cases hs : isSusp total r = true
    · simp [List.filter_cons, hs]
    · simp only [Bool.not_eq_true] at hs
      simp [List.filter_cons, hs]

/-- C7: for every merged table, the vote-pattern check flags exactly the
rows whose race title is not classified statewide and whose precinct
cells all carry positive votes; its findings list is the image of those
rows; a statewide-classified row is never flagged (in particular one
with votes in only 10% of precincts); and the report displays at most
the first 10 findings, with the remainder reported as a count. -/
theorem validator_district_full_coverage_flagged (total : Nat) (rows : List (List Cell))
    (r : List Cell) :
    ((∀ x ∈ rows, titleOk (x.getD 0 Cell.null) = true) →
       suspProblemsE total rows =
         Except.ok ((rows.filter (fun y => isSusp total y)).map suspMsgOf)) ∧
    (r ∈ rows.filter (fun y => isSusp total y) ↔
       r ∈ rows ∧ isStatewide (titleLowerP (r.getD 0 Cell.null)) = false ∧
       votesCount (r.drop 2) = total) ∧
    (isStatewide (titleLowerP (r.getD 0 Cell.null)) = true →
       r ∉ rows.filter (fun y => isSusp total y)) ∧
    (∀ ps : List String, (reportShown ps).length ≤ 10 ∧
       reportRemainder ps = ps.length - 10) := by
  have hmemf : r ∈ rows.filter (fun y => isSusp total y) ↔
      r ∈ rows ∧ isStatewide (titleLowerP (r.getD 0 Cell.null)) = false ∧
      votesCount (r.drop 2) = total := by
    simp [List.mem_filter, isSusp, Bool.and_eq_true, Bool.not_eq_true', beq_iff_eq]
  refine ⟨fun h => suspProblemsE_ok total rows h, hmemf, ?_, ?_⟩
  · intro hsw hf
    rcases hmemf.mp hf with ⟨-, hs, -⟩
    rw [hsw] at hs
    exact Bool.noConfusion hs
  · intro ps
    refine ⟨?_, rfl⟩
    simp only [reportShown, List.length_take]
    omega

/-- Witness for C7 at a concrete district-race row with full coverage. -/
def v7row : List Cell :=
  [Cell.str "State Senator District 1", Cell.str "Cand", Cell.int 4, Cell.int 2]

theorem validator_district_full_coverage_flagged_witness :
    suspProblemsE 2 [v7row] =
      Except.ok (([v7row].filter (fun y => isSusp 2 y)).map suspMsgOf) ∧
    v7row ∈ [v7row].filter (fun y => isSusp 2 y) := by
  constructor
  · exact (validator_district_full_coverage_flagged 2 [v7row] v7row).1
      (fun x hx => by rcases List.mem_singleton.mp hx with rfl; rfl)
  · exact (validator_district_full_coverage_flagged 2 [v7row] v7row).2.1.mpr
      ⟨by simp, by decide, by decide⟩

/-- Concrete merged input for C8: one county file whose single row is a
statewide race with positive votes in 1 of 4 precincts. -/
def c8file : IFile :=
  ⟨"adair",
   [Option.some "RaceTitle", Option.some "CandidateName",
    Option.some "A-1", Option.some "A-2", Option.some "A-3", Option.some "A-4"],
   [[Cell.str "Governor", Cell.str "Minor",
     Cell.int 5, Cell.int 0, Cell.int 0, Cell.int 0]]⟩

/-- Counterexample to C8 as stated: the merged table built from `c8file`
contains a statewide-race row with nonzero votes in fewer than half of
the precinct columns, yet the validation report contains no finding at
all — the statewide low-coverage branch of the code is a `pass`. -/
theorem statewide_low_coverage_unreported_cex :
    merge_county_files [c8file] =
      Except.ok ⟨["RaceTitle", "CandidateName", "A-1", "A-2", "A-3", "A-4"],
                 [[Cell.str "Governor", Cell.str "Minor",
                   Cell.int 5, Cell.int 0, Cell.int 0, Cell.int 0]],
                 [], 4⟩ ∧
    isStatewide (titleLowerP (Cell.str "Governor")) = true ∧
    2 * votesCount [Cell.int 5, Cell.int 0, Cell.int 0, Cell.int 0] < 4 := by
  refine ⟨rfl, by decide, by decide⟩

/-- C8 (corrected): the vote-pattern check evaluates the statewide
low-coverage condition but records nothing for it — a row classified
statewide, whatever its coverage, contributes no finding to the report,
which consists exactly of the district full-coverage findings. -/
theorem statewide_low_coverage_silent (total : Nat) (rows : List (List Cell))
    (r : List Cell)
    (hok : ∀ x ∈ rows, titleOk (x.getD 0 Cell.null) = true)
    (hmem : r ∈ rows)
    (hsw : isStatewide (titleLowerP (r.getD 0 Cell.null)) = true)
    (hcov : 2 * votesCount (r.drop 2) < total) :
    suspProblemsE total rows =
      Except.ok ((rows.filter (fun y => isSusp total y)).map suspMsgOf) ∧
    r ∉ rows.filter (fun y => isSusp total y) := by
  refine ⟨suspProblemsE_ok total rows hok, ?_⟩
  intro hf
  rcases List.mem_filter.mp hf with ⟨-, hs⟩
  rw [isSusp, Bool.and_eq_true, Bool.not_eq_true'] at hs
  rw [hsw] at hs
  exact Bool.noConfusion hs.1

/-- Witness row for C8: a statewide race with low coverage. -/
def v8row : List Cell :=
  [Cell.str "Governor", Cell.str "M", Cell.int 1, Cell.int 0, Cell.int 0]

theorem statewide_low_coverage_silent_witness :
    suspProblemsE 3 [v8row] =
      Except.ok (([v8row].filter (fun y => isSusp 3 y)).map suspMsgOf) ∧
    v8row ∉ [v8row].filter (fun y => isSusp 3 y) :=
  statewide_low_coverage_silent 3 [v8row] v8row
    (fun x hx => by rcases List.mem_singleton.mp hx with rfl; rfl)
    (by simp) (by decide) (by decide)

/-- Counterexample to C6 as stated: the claim promises that variant
spellings of tracked offices classify as true, naming
"United States Senator"; `is_race_we_want` returns false on it (no
keyword of its fixed list occurs inside), and the team_a pattern list
omits "State Senator", so `filter_races` drops a state-senate race. -/
theorem race_classifier_variant_cex :
    is_race_we_want (Cell.str "United States Senator") = false ∧
    filter_races_keep (Cell.str "State Senator District 1") = false := by
  exact ⟨by decide, by decide⟩

/-- C6 (corrected): absent (`None`) and non-string inputs classify as
false and never raise, and a string classifies as true exactly when it
contains, case-insensitively, one of the classifier's own literal
keywords as a substring — spellings outside the literal lists (such as
"United States Senator" for `is_race_we_want`, or "State Senator" for
the team_a pattern list) are not matched. -/
theorem race_classifier_spec :
    (is_race_we_want Cell.null = false) ∧
    (∀ n : Int, is_race_we_want (Cell.int n) = false) ∧
    (∀ s : String, (is_race_we_want (Cell.str s) = true ↔
       ∃ kw ∈ races_to_keep, ∃ u v, (lowerStr s).toList = u ++ kw.toList ++ v)) ∧
    (filter_races_keep Cell.null = false) ∧
    (∀ n : Int, filter_races_keep (Cell.int n) = false) ∧
    (∀ s : String, (filter_races_keep (Cell.str s) = true ↔
       ∃ p ∈ team_a_race_patterns, ∃ u v,
         (lowerStr s).toList = u ++ (lowerStr p).toList ++ v)) := by
  refine ⟨rfl, fun n => rfl, fun s => ?_, rfl, fun n => rfl, fun s => ?_⟩
  · simp only [is_race_we_want, List.any_eq_true, substrOf, substrL_iff]
  · simp only [filter_races_keep, List.any_eq_true, substrOf, substrL_iff]

theorem columnsToKeepAux_mem : ∀ (hs : List (Option String)) (i j : Nat) (n : String),
    (j, n) ∈ columnsToKeepAux i hs ↔
      ∃ k s, hs[k]? = some (Option.some s) ∧ j = i + k ∧ keepName s = some n := by
  intro hs
  induction hs with
  | nil =>
    intro i j n
    simp [columnsToKeepAux]
  | cons h t ih =>
    intro i j n
    cases h with
    | none =>
      rw [show columnsToKeepAux i (Option.none :: t) = columnsToKeepAux (i + 1) t from rfl]
      rw [ih]
      constructor
      · rintro ⟨k, s, h1, h2, h3⟩
        exact ⟨k + 1, s, by simpa using h1, by omega, h3⟩
      · rintro ⟨k, s, h1, h2, h3⟩
        cases k with
        | zero => simp at h1
        | succ k => exact ⟨k, s, by simpa using h1, by omega, h3⟩
    | some s0 =>
      cases hk : keepName s0 with
      | none =>
        have he : columnsToKeepAux i (Option.some s0 :: t) = columnsToKeepAux (i + 1) t := by
          simp [columnsToKeepAux, hk]
        rw [he, ih]
        constructor
        · rintro ⟨k, s, h1, h2, h3⟩
          exact ⟨k + 1, s, by simpa using h1, by omega, h3⟩
        · rintro ⟨k, s, h1, h2, h3⟩
          cases k with
          | zero =>
            simp only [List.getElem?_cons_zero, Option.some.injEq] at h1
            rw [← h1] at h3
            exact absurd h3 (by simp [hk])
          | succ k => exact ⟨k, s, by simpa using h1, by omega, h3⟩
      | some n0 =>
        have he : columnsToKeepAux i (Option.some s0 :: t) =
            (i, n0) :: columnsToKeepAux (i + 1) t := by
          simp [columnsToKeepAux, hk]
        rw [he]
        simp only [List.mem_cons, Prod.mk.injEq, ih]
        constructor
        · rintro (⟨rfl, rfl⟩ | ⟨k, s, h1, h2, h3⟩)
          · exact ⟨0, s0, by simp, by omega, hk⟩
          · exact ⟨k + 1, s, by simpa using h1, by omega, h3⟩
        · rintro ⟨k, s, h1, h2, h3⟩
          cases k with
          | zero =>
            simp only [List.getElem?_cons_zero, Option.some.injEq] at h1
            left
            refine ⟨by omega, ?_⟩
            rw [h1] at hk
            rw [h3] at hk
            injection hk
          | succ k =>
            right
            exact ⟨k, s, by simpa using h1, by omega, h3⟩

theorem columnsToKeepAux_pairwise : ∀ (hs : List (Option String)) (i : Nat),
    List.Pairwise (fun a b => a.1 < b.1) (columnsToKeepAux i hs) := by
  intro hs
  induction hs with
  | nil =>
    intro i
    simp [columnsToKeepAux]
  | cons h t ih =>
    intro i
    cases h with
    | none => exact ih (i + 1)
    | some s0 =>
      cases hk : keepName s0 with
      | none =>
        have he : columnsToKeepAux i (Option.some s0 :: t) = columnsToKeepAux (i + 1) t := by
          simp [columnsToKeepAux, hk]
        rw [he]
        exact ih (i + 1)
      | some n0 =>
        have he : columnsToKeepAux i (Option.some s0 :: t) =
            (i, n0) :: columnsToKeepAux (i + 1) t := by
          simp [columnsToKeepAux, hk]
        rw [he]
        refine List.Pairwise.cons ?_ (ih (i + 1))
        intro b hb
        have hb2 : (b.1, b.2) ∈ columnsToKeepAux (i + 1) t := by
          simpa using hb
        rcases (columnsToKeepAux_mem t (i + 1) b.1 b.2).mp hb2 with ⟨k, s, -, h2, -⟩
        show i < b.1
        omega

theorem keepName_shape (s n : String) (h : keepName s = some n) :
    (n ∈ metadata_columns ∧ n = trimStr s) ∨
    (endsWithStr (trimStr s) " Total" = true ∧ hasHyphen n = true ∧
     n = dropRightStr (trimStr s) 6) := by
  unfold keepName at h
  by_cases h1 : metadata_columns.contains (trimStr s) = true
  · rw [if_pos h1] at h
    cases h
    exact Or.inl ⟨List.elem_iff.mp h1, rfl⟩
  · rw [if_neg h1] at h
    by_cases h2 : endsWithStr (trimStr s) " Total" = true
    · rw [if_pos h2] at h
      by_cases h3 : hasHyphen (dropRightStr (trimStr s) 6) = true
      · rw [if_pos h3] at h
        cases h
        exact Or.inr ⟨h2, h3, rfl⟩
      · rw [if_neg h3] at h
        exact Option.noConfusion h
    · rw [if_neg h2] at h
      exact Option.noConfusion h

theorem keepName_of_metadata (s : String) (h : trimStr s ∈ metadata_columns) :
    keepName s = some (trimStr s) := by
  unfold keepName
  rw [if_pos (List.elem_iff.mpr h)]

theorem keepName_of_not_metadata (s : String) (h : trimStr s ∉ metadata_columns) :
    ∀ n, (keepName s = some n ↔
      (endsWithStr (trimStr s) " Total" = true ∧
       hasHyphen (dropRightStr (trimStr s) 6) = true ∧
       n = dropRightStr (trimStr s) 6)) := by
  intro n
  unfold keepName
  have h1 : ¬(metadata_columns.contains (trimStr s) = true) :=
    fun hc => h (List.elem_iff.mp hc)
  rw [if_neg h1]
  by_cases h2 : endsWithStr (trimStr s) " Total" = true
  · rw [if_pos h2]
    by_cases h3 : hasHyphen (dropRightStr (trimStr s) 6) = true
    · rw [if_pos h3]
      constructor
      · intro hh
        exact ⟨h2, h3, (Option.some.injEq _ _ ▸ hh).symm⟩
      · rintro ⟨-, -, rfl⟩
        rfl
    · rw [if_neg h3]
      constructor
      · intro hh
        exact Option.noConfusion hh
      · rintro ⟨-, hh, -⟩
        exact absurd hh h3
  · rw [if_neg h2]
    constructor
    · intro hh
      exact Option.noConfusion hh
    · rintro ⟨hh, -, -⟩
      exact absurd hh h2

/-- C5: the column resolver keeps every column whose trimmed name is a
metadata name under that name; it keeps any other column exactly when
its trimmed name ends in " Total" with a hyphen in the stripped name,
under the stripped name; every returned non-metadata name contains a
hyphen (no bare county aggregate); and the output preserves source
column order (strictly increasing source indices). -/
theorem column_resolver_spec (hr : List (Option String)) :
    (∀ j n, (j, n) ∈ get_columns_to_keep hr →
       n ∈ metadata_columns ∨ hasHyphen n = true) ∧
    (∀ j s, hr[j]? = some (Option.some s) → trimStr s ∈ metadata_columns →
       (j, trimStr s) ∈ get_columns_to_keep hr) ∧
    (∀ j s, hr[j]? = some (Option.some s) → trimStr s ∉ metadata_columns →
       ∀ n, ((j, n) ∈ get_columns_to_keep hr ↔
         (endsWithStr (trimStr s) " Total" = true ∧
          hasHyphen (dropRightStr (trimStr s) 6) = true ∧
          n = dropRightStr (trimStr s) 6))) ∧
    List.Pairwise (fun a b => a.1 < b.1) (get_columns_to_keep hr) := by
  refine ⟨?_, ?_, ?_, columnsToKeepAux_pairwise hr 0⟩
  · intro j n hmem
    rcases (columnsToKeepAux_mem hr 0 j n).mp hmem with ⟨k, s, -, -, h3⟩
    rcases keepName_shape s n h3 with ⟨hm, -⟩ | ⟨-, hh, -⟩
    · exact Or.inl hm
    · exact Or.inr hh
  · intro j s hj hmeta
    exact (columnsToKeepAux_mem hr 0 j (trimStr s)).mpr
      ⟨j, s, hj, by omega, keepName_of_metadata s hmeta⟩
  · intro j s hj hmeta n
    have hiff := columnsToKeepAux_mem hr 0 j n
    constructor
    · intro hm
      rcases hiff.mp hm with ⟨k, s2, h1, h2, h3⟩
      have hk : k = j := by omega
      rw [hk, hj] at h1
      injection h1 with h1a
      injection h1a with h1b
      rw [← h1b] at h3
      exact (keepName_of_not_metadata s hmeta n).mp h3
    · intro hc
      exact hiff.mpr ⟨j, s, hj, by omega, (keepName_of_not_metadata s hmeta n).mpr hc⟩

/-- Witness header row for C5. -/
def c5hdr : List (Option String) :=
  [Option.some "RaceTitle", Option.some "Polk Total",
   Option.some "Polk-1 Total", Option.none]

theorem column_resolver_spec_witness :
    (0, "RaceTitle") ∈ get_columns_to_keep c5hdr ∧
    (2, "Polk-1") ∈ get_columns_to_keep c5hdr :=
  ⟨(column_resolver_spec c5hdr).2.1 0 "RaceTitle" rfl (by decide),
   ((column_resolver_spec c5hdr).2.2.1 2 "Polk-1 Total" rfl (by decide) "Polk-1").mpr
     ⟨by decide, by decide, by decide⟩⟩

/-- Concrete inputs for C3: a flat sheet whose kept precinct column holds
a blank cell in one row and a non-numeric cell in the other. -/
def c3hdr : List (Option String) :=
  [Option.some "RaceTitle", Option.some "CandidateName", Option.some "Polk-1 Total"]

/-- Data rows paired with `c3hdr`. -/
def c3rows : List (List Cell) :=
  [[Cell.str "Governor", Cell.str "X", Cell.null],
   [Cell.str "Governor", Cell.str "Y", Cell.str "n/a"]]

/-- Counterexample to C3 as stated: the flat parser copies kept cells
unchanged — the blank vote cell is still blank (`None`) in the output
and the non-numeric cell is still the same string; neither becomes the
integer zero. -/
theorem flat_parser_blank_cell_cex :
    (process_election_file c3hdr c3rows).2 =
      [[Cell.str "Governor", Cell.str "X", Cell.null],
       [Cell.str "Governor", Cell.str "Y", Cell.str "n/a"]] ∧
    Cell.null ≠ Cell.int 0 ∧ Cell.str "n/a" ≠ Cell.int 0 := by
  exact ⟨rfl, by decide, by decide⟩

theorem sum_map_const {α : Type} (l : List α) (k : Nat) :
    (l.map (fun _ => k)).sum = l.length * k := by
  induction l with
  | nil => simp
  | cons a t ih => simp [ih, Nat.succ_mul, Nat.add_comm]

/-- C3 (corrected): the flat parser never raises and copies each kept
cell value unchanged (a blank cell stays blank, it does not become
zero), producing per kept row exactly one value per kept column — K
columns by N kept rows in total; the multi-sheet parser coerces only a
missing (`NaN`) vote cell to the integer zero and passes every other
value, numeric or not, through unchanged. -/
theorem parser_cell_values_amended :
    (∀ (cols : List (Nat × String)) (row : List Cell) (k : Nat) (p : Nat × String),
       cols[k]? = some p →
       (processRow cols row)[k]? = some (row.getD p.1 Cell.null)) ∧
    (∀ (cols : List (Nat × String)) (row : List Cell),
       (processRow cols row).length = cols.length) ∧
    (∀ (headers : List (Option String)) (rows : List (List Cell)),
       ((process_election_file headers rows).2).length = (keptRows rows).length ∧
       (((process_election_file headers rows).2).map List.length).sum =
         (keptRows rows).length * (get_columns_to_keep headers).length) ∧
    (votesCoerce Cell.null = Cell.int 0) ∧
    (∀ v : Cell, v ≠ Cell.null → votesCoerce v = v) := by
  refine ⟨?_, ?_, ?_, rfl, ?_⟩
  · intro cols row k p hk
    unfold processRow
    rw [List.getElem?_map, hk]
    rfl
  · intro cols row
    unfold processRow
    exact List.length_map _ _
  · intro headers rows
    constructor
    · exact List.length_map _ _
    · have h1 : ((keptRows rows).map (processRow (get_columns_to_keep headers))).map
          List.length =
          (keptRows rows).map (fun _ => (get_columns_to_keep headers).length) := by
        rw [List.map_map]
        exact List.map_congr_left (fun r hr => List.length_map _ _)
      show (((keptRows rows).map (processRow (get_columns_to_keep headers))).map
          List.length).sum = _
      rw [h1, sum_map_const]
  · intro v hv
    cases v with
    | null => exact absurd rfl hv
    | str s => rfl
    | int n => rfl

theorem parser_cell_values_amended_witness :
    (processRow [(0, "RaceTitle")] [Cell.int 7])[0]? = some (Cell.int 7) ∧
    votesCoerce (Cell.str "n/a") = Cell.str "n/a" :=
  ⟨parser_cell_values_amended.1 [(0, "RaceTitle")] [Cell.int 7] 0 (0, "RaceTitle") rfl,
   parser_cell_values_amended.2.2.2.2 (Cell.str "n/a") (by decide)⟩

theorem findTotalAux_some_spec (row2 : List Cell) (ncols colIdx : Nat) :
    ∀ (k off t : Nat), findTotalAux row2 ncols colIdx k off = some t →
      ∃ d, d < k ∧ t = colIdx + off + d ∧ colIdx + off + d < ncols ∧
        isTotalLabel (row2.getD (colIdx + off + d) Cell.null) = true := by
  intro k
  induction k with
  | zero =>
    intro off t h
    exact Option.noConfusion h
  | succ k ih =>
    intro off t h
    rw [findTotalAux] at h
    by_cases hc : (decide (colIdx + off < ncols) &&
        isTotalLabel (row2.getD (colIdx + off) Cell.null)) = true
    · rw [if_pos hc] at h
      rw [Bool.and_eq_true] at hc
      rcases hc with ⟨hc1, hc2⟩
      injection h with ht
      exact ⟨0, by omega, by omega, by
        have := of_decide_eq_true hc1
        omega, by simpa using hc2⟩
    · rw [if_neg hc] at h
      rcases ih (off + 1) t h with ⟨d, hd1, hd2, hd3, hd4⟩
      have he : colIdx + (off + 1) + d = colIdx + off + (d + 1) := by omega
      rw [he] at hd2 hd3 hd4
      exact ⟨d + 1, by omega, hd2, hd3, hd4⟩

theorem findTotalAux_none_spec (row2 : List Cell) (ncols colIdx : Nat) :
    ∀ (k off : Nat), findTotalAux row2 ncols colIdx k off = none →
      ∀ d, d < k → colIdx + off + d < ncols →
        isTotalLabel (row2.getD (colIdx + off + d) Cell.null) = false := by
  intro k
  induction k with
  | zero =>
    intro off h d hd
    omega
  | succ k ih =>
    intro off h d hd hlt
    rw [findTotalAux] at h
    by_cases hc : (decide (colIdx + off < ncols) &&
        isTotalLabel (row2.getD (colIdx + off) Cell.null)) = true
    · rw [if_pos hc] at h
      exact Option.noConfusion h
    · rw [if_neg hc] at h
      cases d with
      | zero =>
        have hc1 : decide (colIdx + off < ncols) = true := by
          apply decide_eq_true
          omega
        rcases Bool.and_eq_false_iff.mp (Bool.eq_false_iff.mpr hc) with h1 | h1
        · rw [hc1] at h1
          exact Bool.noConfusion h1
        · simpa using h1
      | succ d =>
        have he : colIdx + off + (d + 1) = colIdx + (off + 1) + d := by omega
        rw [he]
        rw [he] at hlt
        exact ih (off + 1) h d (by omega) hlt

/-- C4: in the multi-sheet candidate scan, a candidate cell examined at
some column either has a "Total Votes"/"Total" label within the
five-column lookahead window — in which case `findTotalCol` yields a
column inside the window and the scan records that column as the
candidate's single vote column, resuming past it — or no such label
occurs within the in-range part of the window and the candidate is
dropped: the scan continues at the next column recording nothing, and
the sheet is not aborted; records are only ever emitted for recorded
(candidate, vote column) pairs. -/
theorem multisheet_candidate_window (row1 row2 : List Cell) (ncols fuel colIdx : Nat)
    (c : Cell) (hlt : colIdx < ncols)
    (hc : row1.getD colIdx Cell.null = c) (hne : c ≠ Cell.null) :
    (∀ t, findTotalCol row2 ncols colIdx = some t →
       colIdx ≤ t ∧ t < colIdx + 5 ∧ t < ncols ∧
       isTotalLabel (row2.getD t Cell.null) = true ∧
       scanCandsFuel row1 row2 ncols (fuel + 1) colIdx =
         (c, t) :: scanCandsFuel row1 row2 ncols fuel (t + 1)) ∧
    (findTotalCol row2 ncols colIdx = none →
       (∀ off, off < 5 → colIdx + off < ncols →
          isTotalLabel (row2.getD (colIdx + off) Cell.null) = false) ∧
       scanCandsFuel row1 row2 ncols (fuel + 1) colIdx =
         scanCandsFuel row1 row2 ncols fuel (colIdx + 1)) ∧
    (∀ (county : String) (rt : Cell) (cands : List (Cell × Nat))
       (precs : List (String × Nat)) (df : List (List Cell)) (vr : VRec),
       vr ∈ emitRecords county rt cands precs df →
       ∃ q ∈ cands, vr.cand = q.1) := by
  refine ⟨?_, ?_, ?_⟩
  · intro t ht
    rcases findTotalAux_some_spec row2 ncols colIdx 5 0 t ht with ⟨d, hd1, hd2, hd3, hd4⟩
    refine ⟨by omega, by omega, by omega, by rw [hd2]; simpa using hd4, ?_⟩
    rw [scanCandsFuel, if_pos hlt, hc]
    cases c with
    | null => exact absurd rfl hne
    | str s => rw [ht]
    | int n => rw [ht]
  · intro ht
    constructor
    · intro off ho hr
      have := findTotalAux_none_spec row2 ncols colIdx 5 0 ht off ho (by omega)
      simpa using this
    · rw [scanCandsFuel, if_pos hlt, hc]
      cases c with
      | null => exact absurd rfl hne
      | str s => rw [ht]
      | int n => rw [ht]
  · intro county rt cands precs df vr hvr
    unfold emitRecords at hvr
    rcases List.mem_flatMap.mp hvr with ⟨cq, hcq, hin⟩
    rcases List.mem_map.mp hin with ⟨pq, -, hvr2⟩
    exact ⟨cq, hcq, by rw [← hvr2]⟩

/-- Witness candidate row for C4: candidate at column 1 with "Total
Votes" at column 3 of the category row. -/
def w1row : List Cell :=
  [Cell.null, Cell.str "A", Cell.null, Cell.null, Cell.null, Cell.null]

/-- Witness category row for C4. -/
def w2row : List Cell :=
  [Cell.null, Cell.null, Cell.null, Cell.str "Total Votes", Cell.null, Cell.null]

theorem multisheet_candidate_window_witness :
    scanCandsFuel w1row w2row 6 5 1 =
      (Cell.str "A", 3) :: scanCandsFuel w1row w2row 6 4 4 ∧ 3 < 1 + 5 :=
  ⟨((multisheet_candidate_window w1row w2row 6 4 1 (Cell.str "A")
      (by decide) rfl (by decide)).1 3 (by decide)).2.2.2.2, by decide⟩

theorem extendRows_length (county : String) (pIdx : List (Nat × String))
    (base : List (Cell × Cell)) :
    ∀ (rs : List (List Cell)) (i : Nat) (merged : List (List Cell)) (probs : List String)
      (m' : List (List Cell)) (p' : List String),
      extendRows county pIdx base rs i merged probs = Except.ok (m', p') →
      m'.length = merged.length := by
  intro rs
  induction rs with
  | nil =>
    intro i merged probs m' p' h
    rw [extendRows] at h
    injection h with h2
    injection h2 with h3 h4
    rw [← h3]
  | cons r rs ih =>
    intro i merged probs m' p' h
    rw [extendRows] at h
    split at h
    · have := ih _ _ _ _ _ h
      rw [this, List.length_set]
    · exact Except.noConfusion h

theorem extendRows_ok_of_le (county : String) (pIdx : List (Nat × String))
    (base : List (Cell × Cell)) :
    ∀ (rs : List (List Cell)) (i : Nat) (merged : List (List Cell)) (probs : List String),
      i + rs.length ≤ merged.length →
      ∃ m' p', extendRows county pIdx base rs i merged probs = Except.ok (m', p') := by
  intro rs
  induction rs with
  | nil =>
    intro i merged probs h
    exact ⟨merged, probs, rfl⟩
  | cons r rs ih =>
    intro i merged probs h
    have hi : i < merged.length := by
      simp only [List.length_cons] at h
      omega
    have hm : merged[i]? = some merged[i] := List.getElem?_eq_getElem hi
    rw [extendRows, hm]
    apply ih
    rw [List.length_set]
    simp only [List.length_cons] at h
    omega

theorem extendRows_err_of_gt (county : String) (pIdx : List (Nat × String))
    (base : List (Cell × Cell)) :
    ∀ (rs : List (List Cell)) (i : Nat) (merged : List (List Cell)) (probs : List String),
      merged.length < i + rs.length → i ≤ merged.length →
      extendRows county pIdx base rs i merged probs =
        Except.error "IndexError: list index out of range" := by
  intro rs
  induction rs with
  | nil =>
    intro i merged probs h1 h2
    exact absurd h1 (by simp; omega)
  | cons r rs ih =>
    intro i merged probs h1 h2
    by_cases hi : i < merged.length
    · have hm : merged[i]? = some merged[i] := List.getElem?_eq_getElem hi
      rw [extendRows, hm]
      apply ih
      · rw [List.length_set]
        simp only [List.length_cons] at h1
        omega
      · rw [List.length_set]
        omega
    · have hieq : i = merged.length := by omega
      have hm : merged[i]? = none := List.getElem?_eq_none (by omega)
      rw [extendRows, hm]

theorem extendRows_probs (county : String) (pIdx : List (Nat × String))
    (base : List (Cell × Cell)) :
    ∀ (rs : List (List Cell)) (i : Nat) (merged : List (List Cell)) (probs : List String)
      (m' : List (List Cell)) (p' : List String),
      extendRows county pIdx base rs i merged probs = Except.ok (m', p') →
      p' = probs ++ mismatchProbs county base i rs := by
  intro rs
  induction rs with
  | nil =>
    intro i merged probs m' p' h
    rw [extendRows] at h
    injection h with h2
    injection h2 with h3 h4
    rw [← h4, mismatchProbs, List.append_nil]
  | cons r rs ih =>
    intro i merged probs m' p' h
    rw [extendRows] at h
    split at h
    · have h2 := ih _ _ _ _ _ h
      rw [mismatchProbs, h2]
      cases hb : base[i]? with
      | none => simp
      | some k =>
        by_cases hk : rcKey r = k
        · simp [hk]
        · simp [hk]
    · exact Except.noConfusion h

theorem extendRows_untouched (county : String) (pIdx : List (Nat × String))
    (base : List (Cell × Cell)) :
    ∀ (rs : List (List Cell)) (i : Nat) (merged : List (List Cell)) (probs : List String)
      (m' : List (List Cell)) (p' : List String),
      extendRows county pIdx base rs i merged probs = Except.ok (m', p') →
      ∀ j, j < i → m'[j]? = merged[j]? := by
  intro rs
  induction rs with
  | nil =>
    intro i merged probs m' p' h j hj
    rw [extendRows] at h
    injection h with h2
    injection h2 with h3 h4
    rw [← h3]
  | cons r rs ih =>
    intro i merged probs m' p' h j hj
    rw [extendRows] at h
    split at h
    · have h2 := ih _ _ _ _ _ h j (by omega)
      rw [h2, List.getElem?_set_ne (by omega)]
    · exact Except.noConfusion h

theorem extendRows_row_ext (county : String) (pIdx : List (Nat × String))
    (base : List (Cell × Cell)) :
    ∀ (rs : List (List Cell)) (i : Nat) (merged : List (List Cell)) (probs : List String)
      (m' : List (List Cell)) (p' : List String),
      extendRows county pIdx base rs i merged probs = Except.ok (m', p') →
      ∀ (j : Nat) (mrow : List Cell), merged[j]? = some mrow →
      ∃ ext : List Cell, m'[j]? = some (mrow ++ ext) := by
  intro rs
  induction rs with
  | nil =>
    intro i merged probs m' p' h j mrow hj
    rw [extendRows] at h
    injection h with h2
    injection h2 with h3 h4
    refine ⟨[], ?_⟩
    rw [List.append_nil, ← h3, hj]
  | cons r rs ih =>
    intro i merged probs m' p' h j mrow hj
    rw [extendRows] at h
    split at h
    · rename_i mrowi heq
      by_cases hij : i = j
      · subst hij
        rw [hj] at heq
        injection heq with heq2
        have hilen : i < merged.length := (List.getElem?_eq_some_iff.mp hj).1
        have hset : (merged.set i (mrowi ++ votesAt pIdx r))[i]? =
            some (mrowi ++ votesAt pIdx r) := by
          rw [List.getElem?_set_self']
          rw [hj]
          rfl
        subst heq2
        rcases ih _ _ _ _ _ h i _ hset with ⟨ext2, hex⟩
        exact ⟨votesAt pIdx r ++ ext2, by rw [hex, List.append_assoc]⟩
      · have hset : (merged.set i (mrowi ++ votesAt pIdx r))[j]? = some mrow := by
          rw [List.getElem?_set_ne hij, hj]
        exact ih _ _ _ _ _ h j mrow hset
    · exact Except.noConfusion h

theorem extendRows_row_at (county : String) (pIdx : List (Nat × String))
    (base : List (Cell × Cell)) :
    ∀ (rs : List (List Cell)) (i : Nat) (merged : List (List Cell)) (probs : List String)
      (m' : List (List Cell)) (p' : List String),
      extendRows county pIdx base rs i merged probs = Except.ok (m', p') →
      ∀ d r mrow, rs[d]? = some r → merged[i + d]? = some mrow →
        m'[i + d]? = some (mrow ++ votesAt pIdx r) := by
  intro rs
  induction rs with
  | nil =>
    intro i merged probs m' p' h d r mrow hd
    exact absurd hd (by simp)
  | cons r0 rs ih =>
    intro i merged probs m' p' h d r mrow hd hm
    rw [extendRows] at h
    split at h
    · rename_i mrowi heq
      cases d with
      | zero =>
        simp only [List.getElem?_cons_zero] at hd
        injection hd with hd2
        simp only [Nat.add_zero] at hm
        rw [hm] at heq
        injection heq with heq2
        have huntouched := extendRows_untouched county pIdx base rs (i + 1) _ _ _ _ h
          i (by omega)
        rw [Nat.add_zero, huntouched, List.getElem?_set_self', hm, heq2, hd2]
        rfl
      | succ d =>
        have hd2 : rs[d]? = some r := by simpa using hd
        have he : i + (d + 1) = (i + 1) + d := by omega
        rw [he]
        apply ih _ _ _ _ _ h d r mrow hd2
        rw [List.getElem?_set_ne (by omega), ← he]
        exact hm
    · exact Except.noConfusion h

theorem mismatchProbs_mem (county : String) (base : List (Cell × Cell)) :
    ∀ (rs : List (List Cell)) (i K : Nat) (r : List Cell) (k : Cell × Cell),
      rs[K]? = some r → base[i + K]? = some k → rcKey r ≠ k →
      mismatchMsg county k (rcKey r) ∈ mismatchProbs county base i rs := by
  intro rs
  induction rs with
  | nil =>
    intro i K r k hK
    exact absurd hK (by simp)
  | cons r0 rs ih =>
    intro i K r k hK hb hne
    rw [mismatchProbs]
    cases K with
    | zero =>
      simp only [List.getElem?_cons_zero] at hK
      injection hK with hK2
      simp only [Nat.add_zero] at hb
      rw [hb, hK2]
      show mismatchMsg county k (rcKey r) ∈
        (if rcKey r = k then [] else [mismatchMsg county k (rcKey r)]) ++
          mismatchProbs county base (i + 1) rs
      rw [if_neg hne]
      exact List.mem_append_left _ (List.mem_singleton.mpr rfl)
    | succ K =>
      have hK2 : rs[K]? = some r := by simpa using hK
      have he : i + (K + 1) = (i + 1) + K := by omega
      rw [he] at hb
      exact List.mem_append_right _ (ih (i + 1) K r k hK2 hb hne)

theorem mergeLoop_ok (base : List (Cell × Cell)) :
    ∀ (files : List IFile) (hdrs : List String) (merged : List (List Cell))
      (probs : List String) (tot : Nat),
      (∀ f ∈ files, f.rows.length ≤ merged.length) →
      ∃ h' m' p' t', mergeLoop base files (hdrs, merged, probs, tot) =
        Except.ok (h', m', p', t') ∧ m'.length = merged.length := by
  intro files
  induction files with
  | nil =>
    intro hdrs merged probs tot hfit
    exact ⟨hdrs, merged, probs, tot, rfl, rfl⟩
  | cons f fs ih =>
    intro hdrs merged probs tot hfit
    obtain ⟨m2, p2, hext⟩ := extendRows_ok_of_le f.county (precinctCols f.headers) base
      f.rows 0 merged probs (by simpa using hfit f (by simp))
    have hlen2 : m2.length = merged.length :=
      extendRows_length f.county (precinctCols f.headers) base f.rows 0 merged probs
        m2 p2 hext
    obtain ⟨h', m', p', t', hrec, hlen⟩ := ih
      (hdrs ++ (precinctCols f.headers).map Prod.snd) m2 p2
      (tot + (precinctCols f.headers).length)
      (fun g hg => by rw [hlen2]; exact hfit g (List.mem_cons_of_mem f hg))
    refine ⟨h', m', p', t', ?_, by rw [hlen, hlen2]⟩
    rw [mergeLoop, hext]
    exact hrec

theorem mergeLoop_err (base : List (Cell × Cell)) :
    ∀ (files : List IFile) (hdrs : List String) (merged : List (List Cell))
      (probs : List String) (tot : Nat),
      (∃ f ∈ files, merged.length < f.rows.length) →
      mergeLoop base files (hdrs, merged, probs, tot) =
        Except.error "IndexError: list index out of range" := by
  intro files
  induction files with
  | nil =>
    intro hdrs merged probs tot hex
    exact absurd hex (by simp)
  | cons f fs ih =>
    intro hdrs merged probs tot hex
    by_cases hf : merged.length < f.rows.length
    · have herr := extendRows_err_of_gt f.county (precinctCols f.headers) base
        f.rows 0 merged probs (by omega) (by omega)
      rw [mergeLoop, herr]
    · obtain ⟨m2, p2, hext⟩ := extendRows_ok_of_le f.county (precinctCols f.headers) base
        f.rows 0 merged probs (by omega)
      have hlen2 : m2.length = merged.length :=
        extendRows_length f.county (precinctCols f.headers) base f.rows 0 merged probs
          m2 p2 hext
      rw [mergeLoop, hext]
      apply ih
      rcases hex with ⟨g, hg, hglen⟩
      rcases List.mem_cons.mp hg with rfl | hg2
      · omega
      · exact ⟨g, hg2, by omega⟩

theorem mergeLoop_probs_mono (base : List (Cell × Cell)) :
    ∀ (files : List IFile) (hdrs : List String) (merged : List (List Cell))
      (probs : List String) (tot : Nat) (h' : List String) (m' : List (List Cell))
      (p' : List String) (t' : Nat),
      mergeLoop base files (hdrs, merged, probs, tot) = Except.ok (h', m', p', t') →
      ∀ x ∈ probs, x ∈ p' := by
  intro files
  induction files with
  | nil =>
    intro hdrs merged probs tot h' m' p' t' h x hx
    rw [mergeLoop] at h
    injection h with h2
    injection h2 with ha h2
    injection h2 with hb h2
    injection h2 with hc hd
    rw [← hc]
    exact hx
  | cons f fs ih =>
    intro hdrs merged probs tot h' m' p' t' h x hx
    rw [mergeLoop] at h
    split at h
    · rename_i m2 p2 heq
      have hp2 := extendRows_probs f.county (precinctCols f.headers) base f.rows 0
        merged probs m2 p2 heq
      exact ih _ _ _ _ _ _ _ _ h x (by rw [hp2]; exact List.mem_append_left _ hx)
    · exact Except.noConfusion h

theorem mergeLoop_mismatch_mem (base : List (Cell × Cell)) :
    ∀ (files : List IFile) (hdrs : List String) (merged : List (List Cell))
      (probs : List String) (tot : Nat) (h' : List String) (m' : List (List Cell))
      (p' : List String) (t' : Nat),
      mergeLoop base files (hdrs, merged, probs, tot) = Except.ok (h', m', p', t') →
      ∀ f ∈ files, ∀ x ∈ mismatchProbs f.county base 0 f.rows, x ∈ p' := by
  intro files
  induction files with
  | nil =>
    intro hdrs merged probs tot h' m' p' t' h f hf
    exact absurd hf (by simp)
  | cons g gs ih =>
    intro hdrs merged probs tot h' m' p' t' h f hf x hx
    rw [mergeLoop] at h
    split at h
    · rename_i m2 p2 heq
      have hp2 := extendRows_probs g.county (precinctCols g.headers) base g.rows 0
        merged probs m2 p2 heq
      rcases List.mem_cons.mp hf with rfl | hf2
      · apply mergeLoop_probs_mono base gs _ _ _ _ _ _ _ _ h x
        rw [hp2]
        exact List.mem_append_right _ hx
      · exact ih _ _ _ _ _ _ _ _ h f hf2 x hx
    · exact Except.noConfusion h

theorem mergeLoop_rows_ext (base : List (Cell × Cell)) :
    ∀ (files : List IFile) (hdrs : List String) (merged : List (List Cell))
      (probs : List String) (tot : Nat) (h' : List String) (m' : List (List Cell))
      (p' : List String) (t' : Nat),
      mergeLoop base files (hdrs, merged, probs, tot) = Except.ok (h', m', p', t') →
      ∀ (j : Nat) (mrow : List Cell), merged[j]? = some mrow →
      ∃ ext : List Cell, m'[j]? = some (mrow ++ ext) := by
  intro files
  induction files with
  | nil =>
    intro hdrs merged probs tot h' m' p' t' h j mrow hj
    rw [mergeLoop] at h
    injection h with h2
    injection h2 with ha h2
    injection h2 with hb h2
    refine ⟨[], ?_⟩
    rw [List.append_nil, ← hb, hj]
  | cons f fs ih =>
    intro hdrs merged probs tot h' m' p' t' h j mrow hj
    rw [mergeLoop] at h
    split at h
    · rename_i m2 p2 heq
      rcases extendRows_row_ext f.county (precinctCols f.headers) base f.rows 0
        merged probs m2 p2 heq j mrow hj with ⟨ext1, hex1⟩
      rcases ih _ _ _ _ _ _ _ _ h j _ hex1 with ⟨ext2, hex2⟩
      exact ⟨ext1 ++ ext2, by rw [hex2, List.append_assoc]⟩
    · exact Except.noConfusion h

theorem mergeLoop_headers (base : List (Cell × Cell)) :
    ∀ (files : List IFile) (hdrs : List String) (merged : List (List Cell))
      (probs : List String) (tot : Nat) (h' : List String) (m' : List (List Cell))
      (p' : List String) (t' : Nat),
      mergeLoop base files (hdrs, merged, probs, tot) = Except.ok (h', m', p', t') →
      ∃ ext : List String, h' = hdrs ++ ext ∧
        ∀ x ∈ ext, ∃ f ∈ files, ∃ j : Nat, (j, x) ∈ precinctCols f.headers := by
  intro files
  induction files with
  | nil =>
    intro hdrs merged probs tot h' m' p' t' h
    rw [mergeLoop] at h
    injection h with h2
    injection h2 with ha h2
    refine ⟨[], by rw [List.append_nil, ← ha], ?_⟩
    intro x hx
    exact absurd hx (by simp)
  | cons f fs ih =>
    intro hdrs merged probs tot h' m' p' t' h
    rw [mergeLoop] at h
    split at h
    · rename_i m2 p2 heq
      rcases ih _ _ _ _ _ _ _ _ h with ⟨ext2, hh, hprop⟩
      refine ⟨(precinctCols f.headers).map Prod.snd ++ ext2,
        by rw [hh, List.append_assoc], ?_⟩
      intro x hx
      rcases List.mem_append.mp hx with hx1 | hx2
      · rcases List.mem_map.mp hx1 with ⟨⟨j, n⟩, hmem, rfl⟩
        exact ⟨f, by simp, j, hmem⟩
      · rcases hprop x hx2 with ⟨g, hg, j, hj⟩
        exact ⟨g, List.mem_cons_of_mem f hg, j, hj⟩
    · exact Except.noConfusion h

theorem precinctColsAux_not_meta :
    ∀ (hs : List (Option String)) (i j : Nat) (n : String),
      (j, n) ∈ precinctColsAux i hs → metadata_columns.contains n = false := by
  intro hs
  induction hs with
  | nil =>
    intro i j n hmem
    exact absurd hmem (by simp [precinctColsAux])
  | cons h t ih =>
    intro i j n hmem
    cases h with
    | none => exact ih (i + 1) j n hmem
    | some s =>
      rw [precinctColsAux] at hmem
      by_cases hc : (s != "" && !(metadata_columns.contains (trimStr s))) = true
      · rw [if_pos hc] at hmem
        rcases List.mem_cons.mp hmem with heq | hmem2
        · injection heq with h1 h2
          rw [Bool.and_eq_true] at hc
          rw [h2]
          simpa using hc.2
        · exact ih (i + 1) j n hmem2
      · rw [if_neg hc] at hmem
        exact ih (i + 1) j n hmem

theorem merge_county_files_cons (f0 : IFile) (rest : List IFile) :
    merge_county_files (f0 :: rest) =
      match mergeLoop (f0.rows.map rcKey) (f0 :: rest)
          (["RaceTitle", "CandidateName"],
           f0.rows.map (fun r => [r.getD 0 Cell.null, r.getD 1 Cell.null]), [], 0) with
      | Except.error e => Except.error e
      | Except.ok (hdrs, merged, probs, tot) =>
        match suspProblemsE tot merged with
        | Except.error e => Except.error e
        | Except.ok sus =>
          Except.ok ⟨hdrs, merged, probs ++ shapeProblemsAux (2 + tot) 0 merged ++ sus,
            tot⟩ := rfl

theorem merge_ok_of_fits (f0 : IFile) (rest : List IFile)
    (hfit : ∀ f ∈ f0 :: rest, f.rows.length ≤ f0.rows.length)
    (htitle : ∀ r ∈ f0.rows, titleOk (r.getD 0 Cell.null) = true) :
    ∃ out : MergeOut, merge_county_files (f0 :: rest) = Except.ok out ∧
      out.rows.length = f0.rows.length ∧
      (∀ (j : Nat) (r : List Cell), f0.rows[j]? = some r →
         ∃ ext : List Cell, out.rows[j]? =
           some ([r.getD 0 Cell.null, r.getD 1 Cell.null] ++ ext)) ∧
      (∀ f ∈ f0 :: rest, ∀ x ∈ mismatchProbs f.county (f0.rows.map rcKey) 0 f.rows,
         x ∈ out.problems) ∧
      (∃ ext2 : List String, out.headers = ["RaceTitle", "CandidateName"] ++ ext2 ∧
         ∀ x ∈ ext2, metadata_columns.contains x = false) := by
  have hlen0 : (f0.rows.map (fun r => [r.getD 0 Cell.null, r.getD 1 Cell.null])).length
      = f0.rows.length := List.length_map _ _
  obtain ⟨h', m', p', t', hLoop, hmlen⟩ := mergeLoop_ok (f0.rows.map rcKey) (f0 :: rest)
    ["RaceTitle", "CandidateName"]
    (f0.rows.map (fun r => [r.getD 0 Cell.null, r.getD 1 Cell.null])) [] 0
    (fun f hf => by rw [hlen0]; exact hfit f hf)
  have hrows : ∀ (j : Nat) (r : List Cell), f0.rows[j]? = some r →
      ∃ ext : List Cell, m'[j]? =
        some ([r.getD 0 Cell.null, r.getD 1 Cell.null] ++ ext) := by
    intro j r hj
    apply mergeLoop_rows_ext _ _ _ _ _ _ _ _ _ _ hLoop j
    rw [List.getElem?_map, hj]
    rfl
  have htitles : ∀ x ∈ m', titleOk (x.getD 0 Cell.null) = true := by
    intro x hx
    rcases List.mem_iff_getElem?.mp hx with ⟨j, hj⟩
    have hjlen : j < m'.length := (List.getElem?_eq_some_iff.mp hj).1
    have hjf : j < f0.rows.length := by
      rw [hmlen, hlen0] at hjlen
      exact hjlen
    obtain ⟨r, hr⟩ : ∃ r, f0.rows[j]? = some r := ⟨_, List.getElem?_eq_getElem hjf⟩
    rcases hrows j r hr with ⟨ext, hjext⟩
    rw [hj] at hjext
    injection hjext with hx2
    rw [hx2]
    show titleOk (r.getD 0 Cell.null) = true
    exact htitle r (List.mem_iff_getElem?.mpr ⟨j, hr⟩)
  obtain ⟨sus, hsusp⟩ : ∃ sus, suspProblemsE t' m' = Except.ok sus :=
    ⟨_, suspProblemsE_ok t' m' htitles⟩
  refine ⟨⟨h', m', p' ++ shapeProblemsAux (2 + t') 0 m' ++ sus, t'⟩, ?_, ?_, hrows, ?_, ?_⟩
  · rw [merge_county_files_cons, hLoop]
    show ((match suspProblemsE t' m' with
      | Except.error e => Except.error e
      | Except.ok sus2 =>
        Except.ok ⟨h', m', p' ++ shapeProblemsAux (2 + t') 0 m' ++ sus2, t'⟩ :
      Except String MergeOut)) = _
    rw [hsusp]
  · show m'.length = f0.rows.length
    rw [hmlen, hlen0]
  · intro f hf x hx
    show x ∈ p' ++ shapeProblemsAux (2 + t') 0 m' ++ sus
    have hp := mergeLoop_mismatch_mem _ _ _ _ _ _ _ _ _ _ hLoop f hf x hx
    exact List.mem_append_left _ (List.mem_append_left _ hp)
  · rcases mergeLoop_headers _ _ _ _ _ _ _ _ _ _ hLoop with ⟨ext2, hh, hprop⟩
    refine ⟨ext2, hh, ?_⟩
    intro x hx
    rcases hprop x hx with ⟨f, hf, j, hj⟩
    exact precinctColsAux_not_meta f.headers 0 j x hj

/-- C10: the positional merge is total only when no later county file has
more data rows than the first (base) file — a later file with more rows
makes the merge raise an uncaught IndexError and produce no output,
while runs in which every later file fits inside the base (and whose
base titles are lowercase-able) complete and produce merged output. -/
theorem merge_positional_requires_base_bound (f0 : IFile) (rest : List IFile) :
    ((∃ f ∈ rest, f0.rows.length < f.rows.length) →
       merge_county_files (f0 :: rest) =
         Except.error "IndexError: list index out of range") ∧
    ((∀ f ∈ rest, f.rows.length ≤ f0.rows.length) →
     (∀ r ∈ f0.rows, titleOk (r.getD 0 Cell.null) = true) →
     ∃ out : MergeOut, merge_county_files (f0 :: rest) = Except.ok out) := by
  constructor
  · rintro ⟨f, hf, hlen⟩
    have herr := mergeLoop_err (f0.rows.map rcKey) (f0 :: rest)
      ["RaceTitle", "CandidateName"]
      (f0.rows.map (fun r => [r.getD 0 Cell.null, r.getD 1 Cell.null])) [] 0
      ⟨f, List.mem_cons_of_mem f0 hf, by rw [List.length_map]; exact hlen⟩
    rw [merge_county_files_cons, herr]
  · intro hfit htitle
    obtain ⟨out, hout, -, -, -, -⟩ := merge_ok_of_fits f0 rest
      (fun g hg => by
        rcases List.mem_cons.mp hg with rfl | hg2
        · exact Nat.le_refl _
        · exact hfit g hg2) htitle
    exact ⟨out, hout⟩

/-- Witness base file for C10. -/
def m0 : IFile :=
  ⟨"m0", [Option.some "RaceTitle", Option.some "CandidateName", Option.some "M-1"],
   [[Cell.str "G", Cell.str "X", Cell.int 1]]⟩

/-- Witness oversized later file for C10. -/
def mbig : IFile :=
  ⟨"m1", [Option.some "RaceTitle", Option.some "CandidateName", Option.some "N-1"],
   [[Cell.str "G", Cell.str "X", Cell.int 1], [Cell.str "G", Cell.str "Y", Cell.int 2]]⟩

theorem merge_positional_requires_base_bound_witness :
    merge_county_files [m0, mbig] =
      Except.error "IndexError: list index out of range" ∧
    ∃ out : MergeOut, merge_county_files [m0] = Except.ok out :=
  ⟨(merge_positional_requires_base_bound m0 [mbig]).1
      ⟨mbig, by simp, by decide⟩,
   (merge_positional_requires_base_bound m0 []).2 (by simp)
      (fun r hr => by rcases List.mem_singleton.mp hr with rfl; rfl)⟩

/-- Mismatched oversized later file for the C1 counterexample: its row 0
names a different candidate than row 0 of `m0`, and it has more data
rows than `m0`. -/
def m2file : IFile :=
  ⟨"m2", [Option.some "RaceTitle", Option.some "CandidateName", Option.some "N-1"],
   [[Cell.str "G", Cell.str "Y", Cell.int 1],
    [Cell.str "G", Cell.str "X", Cell.int 2]]⟩

/-- Counterexample to C1 as stated: with a later file that both contains
a row-order mismatch at index 0 and has more data rows than the base
file, the merge does not continue — it aborts with an uncaught
IndexError and produces neither report nor merged output. -/
theorem merge_mismatch_recorded_cex :
    rcKey (m2file.rows.getD 0 []) ≠ rcKey (m0.rows.getD 0 []) ∧
    merge_county_files [m0, m2file] =
      Except.error "IndexError: list index out of range" := by
  refine ⟨by decide, rfl⟩

/-- C1 (corrected): provided every file of the run has at most as many
data rows as the base file, a later file naming a different
(race, candidate) pair at an index K of the base structure makes the
merge record the corresponding row-mismatch finding in its problem
report while completing normally, and the per-file merge step still
attaches that file's precinct votes to merged row K by position. -/
theorem merge_mismatch_recorded (f0 : IFile) (rest : List IFile) (fk : IFile)
    (K : Nat) (rK bK : List Cell)
    (hfit : ∀ f ∈ f0 :: rest, f.rows.length ≤ f0.rows.length)
    (htitle : ∀ r ∈ f0.rows, titleOk (r.getD 0 Cell.null) = true)
    (hmem : fk ∈ rest)
    (hrK : fk.rows[K]? = some rK)
    (hbK : f0.rows[K]? = some bK)
    (hne : rcKey rK ≠ rcKey bK) :
    (∃ out : MergeOut, merge_county_files (f0 :: rest) = Except.ok out ∧
       mismatchMsg fk.county (rcKey bK) (rcKey rK) ∈ out.problems) ∧
    (∀ (pIdx : List (Nat × String)) (merged : List (List Cell)) (probs : List String)
       (m' : List (List Cell)) (p' : List String) (mrow : List Cell),
       extendRows fk.county pIdx (f0.rows.map rcKey) fk.rows 0 merged probs =
         Except.ok (m', p') →
       merged[K]? = some mrow →
       m'[K]? = some (mrow ++ votesAt pIdx rK)) := by
  constructor
  · obtain ⟨out, hout, -, -, hprob, -⟩ := merge_ok_of_fits f0 rest hfit htitle
    refine ⟨out, hout, ?_⟩
    apply hprob fk (List.mem_cons_of_mem f0 hmem)
    apply mismatchProbs_mem fk.county (f0.rows.map rcKey) fk.rows 0 K rK (rcKey bK) hrK
    · rw [Nat.zero_add, List.getElem?_map, hbK]
      rfl
    · exact hne
  · intro pIdx merged probs m' p' mrow hok hK
    have hres := extendRows_row_at fk.county pIdx (f0.rows.map rcKey) fk.rows 0 merged
      probs m' p' hok K rK mrow hrK (by rw [Nat.zero_add]; exact hK)
    rw [Nat.zero_add] at hres
    exact hres

/-- Witness base file for C1: two rows in one order. -/
def s0f : IFile :=
  ⟨"a", [Option.some "RaceTitle", Option.some "CandidateName", Option.some "A-1"],
   [[Cell.str "G", Cell.str "X", Cell.int 3], [Cell.str "G", Cell.str "Y", Cell.int 4]]⟩

/-- Witness later file for C1: the same two rows deliberately swapped. -/
def s1f : IFile :=
  ⟨"b", [Option.some "RaceTitle", Option.some "CandidateName", Option.some "B-1"],
   [[Cell.str "G", Cell.str "Y", Cell.int 7], [Cell.str "G", Cell.str "X", Cell.int 8]]⟩

theorem merge_mismatch_recorded_witness :
    ∃ out : MergeOut, merge_county_files [s0f, s1f] = Except.ok out ∧
      mismatchMsg "b" (Cell.str "G", Cell.str "X") (Cell.str "G", Cell.str "Y") ∈
        out.problems :=
  (merge_mismatch_recorded s0f [s1f] s1f 0
    [Cell.str "G", Cell.str "Y", Cell.int 7] [Cell.str "G", Cell.str "X", Cell.int 3]
    (fun f hf => by
      rcases List.mem_cons.mp hf with rfl | hf2
      · exact Nat.le_refl _
      · rcases List.mem_singleton.mp hf2 with rfl
        exact by decide)
    (fun r hr => by
      rcases List.mem_cons.mp hr with rfl | hr2
      · rfl
      · rcases List.mem_singleton.mp hr2 with rfl
        rfl)
    (by simp) rfl rfl (by decide)).1

theorem firstDedupAux_mem {α : Type} [DecidableEq α] :
    ∀ (l seen : List α) (x : α),
      x ∈ firstDedupAux seen l ↔ x ∈ l ∧ x ∉ seen := by
  intro l
  induction l with
  | nil =>
    intro seen x
    simp [firstDedupAux]
  | cons a t ih =>
    intro seen x
    rw [firstDedupAux]
    by_cases ha : a ∈ seen
    · rw [if_pos ha, ih]
      constructor
      · rintro ⟨h1, h2⟩
        exact ⟨List.mem_cons_of_mem a h1, h2⟩
      · rintro ⟨h1, h2⟩
        rcases List.mem_cons.mp h1 with rfl | h1
        · exact absurd ha h2
        · exact ⟨h1, h2⟩
    · rw [if_neg ha]
      simp only [List.mem_cons, ih, List.mem_cons]
      constructor
      · rintro (rfl | ⟨h1, h2⟩)
        · exact ⟨Or.inl rfl, ha⟩
        · exact ⟨Or.inr h1, fun hx => h2 (Or.inr hx)⟩
      · rintro ⟨rfl | h1, h2⟩
        · exact Or.inl rfl
        · by_cases hxa : x = a
          · exact Or.inl hxa
          · exact Or.inr ⟨h1, fun hx => (hx.elim hxa h2 : False)⟩

/-- Concrete team_a county file A for C2: two keys, one precinct. -/
def tfA : TFile :=
  ⟨["A-1"], [(("R", "X"), [Option.some 5]), (("R", "Y"), [Option.some 3])]⟩

/-- Concrete team_a county file B for C2: only one of the two keys. -/
def tfB : TFile :=
  ⟨["B-1"], [(("R", "X"), [Option.some 2])]⟩

/-- Concrete iowa county file A for C2. -/
def ifA : IFile :=
  ⟨"a", [Option.some "RaceTitle", Option.some "CandidateName", Option.some "A-1"],
   [[Cell.str "R", Cell.str "X", Cell.int 5]]⟩

/-- Concrete iowa county file B for C2: a different key at row 0. -/
def ifB : IFile :=
  ⟨"b", [Option.some "RaceTitle", Option.some "CandidateName", Option.some "B-1"],
   [[Cell.str "R", Cell.str "Y", Cell.int 0]]⟩

/-- Counterexample to C2 as stated: in the key-aligned (team_a) merge the
row ("R","Y"), absent from file B, carries a missing (`NaN`, exported
blank) value — not zero — in file B's precinct column; and in the
positional (iowa) merge the key set of the output is the first file's
keys, not the union: ("R","Y") is a key of file B yet appears in no
merged row. -/
theorem merge_union_zero_fill_cex :
    tMergedRow [tfA, tfB] ("R", "Y") = [Option.some 3, Option.none] ∧
    (Option.none : Option Int) ≠ Option.some 0 ∧
    optCell Option.none = Cell.null ∧
    merge_county_files [ifA, ifB] =
      Except.ok ⟨["RaceTitle", "CandidateName", "A-1", "B-1"],
        [[Cell.str "R", Cell.str "X", Cell.int 5, Cell.int 0]],
        [mismatchMsg "b" (Cell.str "R", Cell.str "X") (Cell.str "R", Cell.str "Y")], 2⟩ ∧
    (Cell.str "R", Cell.str "Y") ∈ ifB.rows.map rcKey ∧
    (Cell.str "R", Cell.str "Y") ∉
      [[Cell.str "R", Cell.str "X", Cell.int 5, Cell.int 0]].map rcKey := by
  refine ⟨rfl, by decide, rfl, rfl, by decide, by decide⟩

/-- C2 (corrected): the key-aligned (team_a) merge produces exactly the
union of the (race title, candidate name) keys across the input files,
and a row absent from a file carries missing (`NaN`/blank) values — not
zeros — in that file's precinct columns; the positional (iowa) merge
instead keeps exactly the first file's rows: its output has one row per
base row, each opening with the base row's (race title, candidate
name) pair. -/
theorem merge_union_semantics (files : List TFile) (k : String × String) (f : TFile)
    (f0 : IFile) (rest : List IFile) :
    (k ∈ tMergedKeys files ↔ ∃ g ∈ files, k ∈ g.rows.map Prod.fst) ∧
    (k ∉ f.rows.map Prod.fst →
       tFileValues f k = f.precincts.map (fun _ => (Option.none : Option Int))) ∧
    ((∀ g ∈ f0 :: rest, g.rows.length ≤ f0.rows.length) →
     (∀ r ∈ f0.rows, titleOk (r.getD 0 Cell.null) = true) →
     ∃ out : MergeOut, merge_county_files (f0 :: rest) = Except.ok out ∧
       out.rows.length = f0.rows.length ∧
       (∀ (j : Nat) (row b : List Cell), out.rows[j]? = some row →
          f0.rows[j]? = some b →
          row.getD 0 Cell.null = b.getD 0 Cell.null ∧
          row.getD 1 Cell.null = b.getD 1 Cell.null)) := by
  refine ⟨?_, ?_, ?_⟩
  · unfold tMergedKeys
    rw [firstDedupAux_mem]
    simp [List.mem_flatMap]
  · intro hk
    have hfind : f.rows.find? (fun r => r.1 == k) = none := by
      rw [List.find?_eq_none]
      intro x hx hbeq
      exact hk (List.mem_map.mpr ⟨x, hx, by simpa using hbeq⟩)
    unfold tFileValues
    rw [hfind]
  · intro hfit htitle
    obtain ⟨out, hout, hlen, hrows, -, -⟩ := merge_ok_of_fits f0 rest hfit htitle
    refine ⟨out, hout, hlen, ?_⟩
    intro j row b hj hb
    rcases hrows j b hb with ⟨ext, hext⟩
    rw [hj] at hext
    injection hext with hx
    rw [hx]
    exact ⟨rfl, rfl⟩

theorem merge_union_semantics_witness :
    ("R", "X") ∈ tMergedKeys [tfA, tfB] ∧
    tFileValues tfB ("R", "Y") = [Option.none] :=
  ⟨(merge_union_semantics [tfA, tfB] ("R", "X") tfB ifA []).1.mpr
      ⟨tfA, by simp, by decide⟩,
   (merge_union_semantics [tfA, tfB] ("R", "Y") tfB ifA []).2.1 (by decide)⟩

/-- Concrete iowa county file for C9 carrying a party label. -/
def pf : IFile :=
  ⟨"adair",
   [Option.some "RaceTitle", Option.some "CandidateName",
    Option.some "PoliticalPartyName", Option.some "A-1"],
   [[Cell.str "Governor", Cell.str "X", Cell.str "REP", Cell.int 2]]⟩

/-- Counterexample to C9 as stated: the iowa merger's output has no
party-name column at all — its third column is the first precinct — and
the party label "REP" supplied by the contributing file appears nowhere
in the merged row. -/
theorem merged_party_dropped_cex :
    merge_county_files [pf] =
      Except.ok ⟨["RaceTitle", "CandidateName", "A-1"],
        [[Cell.str "Governor", Cell.str "X", Cell.int 2]], [], 1⟩ ∧
    Cell.str "REP" ∉ [Cell.str "Governor", Cell.str "X", Cell.int 2] ∧
    ("PoliticalPartyName" : String) ∉ ["RaceTitle", "CandidateName", "A-1"] := by
  refine ⟨rfl, by decide, by decide⟩

/-- C9 (corrected): the iowa merger's output opens with exactly the race
title and candidate name columns and contains no PoliticalPartyName
column — party labels from input files are dropped; the team_a merger
inserts a PoliticalPartyName column at position 2 whose value is the
constant empty string in every externalized row, whatever the inputs. -/
theorem merged_party_column (f0 : IFile) (rest : List IFile) (tfiles : List TFile)
    (row : List Cell)
    (hfit : ∀ g ∈ f0 :: rest, g.rows.length ≤ f0.rows.length)
    (htitle : ∀ r ∈ f0.rows, titleOk (r.getD 0 Cell.null) = true) :
    (∃ out : MergeOut, merge_county_files (f0 :: rest) = Except.ok out ∧
       out.headers.take 2 = ["RaceTitle", "CandidateName"] ∧
       "PoliticalPartyName" ∉ out.headers) ∧
    (row ∈ tMergeExternal tfiles → row[2]? = some (Cell.str "")) := by
  constructor
  · obtain ⟨out, hout, -, -, -, ext2, hh, hext⟩ := merge_ok_of_fits f0 rest hfit htitle
    refine ⟨out, hout, by rw [hh]; rfl, ?_⟩
    intro hmem
    rw [hh] at hmem
    rcases List.mem_append.mp hmem with h1 | h1
    · exact absurd h1 (by decide)
    · have hc := hext _ h1
      have hc2 : metadata_columns.contains "PoliticalPartyName" = true := by decide
      rw [hc2] at hc
      exact Bool.noConfusion hc
  · intro hm
    unfold tMergeExternal at hm
    rcases List.mem_map.mp hm with ⟨p, -, hp⟩
    rw [← hp]
    show (Cell.str p.1.1 :: Cell.str p.1.2 :: Cell.str "" :: p.2.map optCell)[2]? =
      some (Cell.str "")
    rw [List.getElem?_cons_succ, List.getElem?_cons_succ, List.getElem?_cons_zero]

theorem merged_party_column_witness :
    ∃ out : MergeOut, merge_county_files [pf] = Except.ok out ∧
      out.headers.take 2 = ["RaceTitle", "CandidateName"] ∧
      "PoliticalPartyName" ∉ out.headers :=
  (merged_party_column pf [] [] []
    (fun g hg => by rcases List.mem_singleton.mp hg with rfl; exact Nat.le_refl _)
    (fun r hr => by rcases List.mem_singleton.mp hr with rfl; rfl)).1

end Iowa
